import Mathlib

/-!
# Verification of the file-drop event-processor core

A shallow embedding of the S3 event-processor Lambda
(`src/event-processor/index.ts` and its related variant): per-record
classification, optional JSON validation, copy-then-delete relocation with
date-stamped naming, error relocation with reason tags, and fire-and-forget
dispatch to a per-route target Lambda.

External collaborators (the S3 client, the Lambda client, `JSON.parse`, the
clock) are modelled by an explicit environment `Env`; the object store is an
association list from keys to contents.  Every S3/Lambda request the code
issues is recorded in an `ClientCall` trace so that claims about "zero
copy/delete calls" or "zero consumer invocations" are directly statable.
-/

/-! ## Character and string primitives

The TypeScript source manipulates keys with `String.prototype` methods and
regular expressions.  These are modelled by executable functions on `List
Char`, wrapped to `String` via `String.data`. -/

/-- Decimal digit test, modelling the regex class `\d`. -/
def isDigitCh (c : Char) : Bool := '0' ≤ c && c ≤ '9'

/-- Hexadecimal digit test (for percent-escape sequences). -/
def isHexDigitCh (c : Char) : Bool :=
  isDigitCh c || ('a' ≤ c && c ≤ 'f') || ('A' ≤ c && c ≤ 'F')

/-- Numeric value of a hexadecimal digit. -/
def hexVal (c : Char) : Nat :=
  if isDigitCh c then c.toNat - 48
  else if 'a' ≤ c && c ≤ 'f' then c.toNat - 87
  else c.toNat - 55

/-- Character class `[\d:.]` from the already-processed filename regex. -/
def tsChar (c : Char) : Bool := isDigitCh c || c == ':' || c == '.'

/-- `pre` is a prefix of `l` (models `String.prototype.startsWith`). -/
def leadsWith : List Char → List Char → Bool
  | [], _ => true
  | _ :: _, [] => false
  | p :: ps, c :: cs => p == c && leadsWith ps cs

/-- `needle` occurs as a contiguous substring of `hay`
(models `String.prototype.includes`). -/
def occursIn (needle : List Char) : List Char → Bool
  | [] => leadsWith needle []
  | c :: cs => leadsWith needle (c :: cs) || occursIn needle cs

/-- Models `key.startsWith(pre)`. -/
def startsWithS (s pre : String) : Bool := leadsWith pre.data s.data

/-- Models `key.endsWith(suf)`. -/
def endsWithS (s suf : String) : Bool := leadsWith suf.data.reverse s.data.reverse

/-- Models `key.includes(sub)`. -/
def includesS (s sub : String) : Bool := occursIn sub.data s.data

/-- Models `key.split('/').pop() || ''`: the part of the key after the last
`'/'` (the whole key when it has no `'/'`, the empty string when it ends in
`'/'`). -/
def lastComponent (s : String) : String :=
  ⟨(s.data.reverse.takeWhile (fun c => c != '/')).reverse⟩

/-- Models `subfolderPath.split('-').pop()`: the part after the last `'-'`. -/
def lastHyphenSegment (s : String) : String :=
  ⟨(s.data.reverse.takeWhile (fun c => c != '-')).reverse⟩

/-- Models the JavaScript `||` default for a possibly-empty (falsy) string. -/
def jsOrDefault (s d : String) : String := if s = "" then d else s

/-- Models `key.replace(/\+/g, ' ')` character-wise. -/
def replacePlusChar (c : Char) : Char := if c = '+' then ' ' else c

/-- Models `key.replace(/\+/g, ' ')`. -/
def replacePlus (s : String) : String := ⟨s.data.map replacePlusChar⟩

/-- The character denoted by the percent-escape `%ab`. -/
def hexByteChar (a b : Char) : Char := Char.ofNat (16 * hexVal a + hexVal b)

/-- Model of the platform `decodeURIComponent`: each `%hh` escape is replaced
by the character with code `hh`; a `%` not followed by two hex digits makes
the whole call throw (`none`).  Faithful for escapes denoting single-byte
(ASCII) code points; multi-byte UTF-8 escape sequences are outside the
modelled domain. -/
def urlDecodeList : List Char → Option (List Char)
  | [] => some []
  | '%' :: rest =>
    match rest with
    | a :: b :: t =>
      if isHexDigitCh a && isHexDigitCh b then
        (urlDecodeList t).map (fun r => hexByteChar a b :: r)
      else none
    | _ => none
  | c :: rest => (urlDecodeList rest).map (fun r => c :: r)

/-- Models line `const key = decodeURIComponent(record.s3.object.key.replace(/\+/g, ' '))`
of `processRecord`; `none` models a thrown `URIError`. -/
def decodeObjectKey (rawKey : String) : Option String :=
  (urlDecodeList (replacePlus rawKey).data).map (fun l => ⟨l⟩)

/-- Unreserved characters that `encodeURIComponent` leaves unescaped. -/
def isUnreservedURI (c : Char) : Bool :=
  ('A' ≤ c && c ≤ 'Z') || ('a' ≤ c && c ≤ 'z') || ('0' ≤ c && c ≤ '9') ||
  c == '-' || c == '_' || c == '.' || c == '!' || c == '~' || c == '*' ||
  c == Char.ofNat 39 || c == '(' || c == ')'

/-- Upper-case hexadecimal digit for a value below 16. -/
def hexDigitUpper (n : Nat) : Char :=
  if n < 10 then Char.ofNat (48 + n) else Char.ofNat (55 + n)

/-- Percent-encoding of one character (single-byte code points). -/
def percentEncodeChar (c : Char) : List Char :=
  if isUnreservedURI c then [c]
  else ['%', hexDigitUpper (c.toNat / 16), hexDigitUpper (c.toNat % 16)]

/-- Model of the platform `encodeURIComponent`, faithful for strings of
single-byte (ASCII) code points — the only strings the source applies it to
(the fixed error reasons). -/
def encodeURIComponentM (s : String) : String :=
  ⟨(s.data.map percentEncodeChar).flatten⟩

/-! ## The already-processed filename pattern

`src/unnamed/part_004` line 65:
`/^(full|delta|invalid-json)-\d{4}-\d{2}-\d{2}T[\d:.]+Z\.json$/`. -/

/-- Matches `\d{4}-\d{2}-\d{2}T[\d:.]+Z\.json$` against the characters that
follow the `(full|delta|invalid-json)-` alternative.  `[\d:.]+` cannot match
`'Z'`, so maximal munch is exact. -/
def dateTail : List Char → Bool
  | d1 :: d2 :: d3 :: d4 :: h1 :: d5 :: d6 :: h2 :: d7 :: d8 :: t1 :: rest =>
    isDigitCh d1 && isDigitCh d2 && isDigitCh d3 && isDigitCh d4 && h1 == '-' &&
    isDigitCh d5 && isDigitCh d6 && h2 == '-' && isDigitCh d7 && isDigitCh d8 &&
    t1 == 'T' &&
    !(rest.takeWhile tsChar).isEmpty &&
    rest.dropWhile tsChar == ['Z', '.', 'j', 's', 'o', 'n']
  | _ => false

/-- Models `dateBasedPattern.test(filename)` for the regex
`^(full|delta|invalid-json)-\d{4}-\d{2}-\d{2}T[\d:.]+Z\.json$` (the three
alternatives are mutually prefix-free, so ordered trial is exact). -/
def dateBasedPattern (filename : String) : Bool :=
  let l := filename.data
  if leadsWith "full-".data l then dateTail (l.drop 5)
  else if leadsWith "delta-".data l then dateTail (l.drop 6)
  else if leadsWith "invalid-json-".data l then dateTail (l.drop 13)
  else false

/-- Shape of the timestamps produced by `new Date().toISOString()`:
`\d{4}-\d{2}-\d{2}T` followed by a nonempty run of `[\d:.]` and a final `Z`.
Used as a hypothesis wherever a claim relies on the clock producing an
ISO-8601 string. -/
def isoLikeTimestamp (s : String) : Bool :=
  match s.data with
  | d1 :: d2 :: d3 :: d4 :: h1 :: d5 :: d6 :: h2 :: d7 :: d8 :: t1 :: rest =>
    isDigitCh d1 && isDigitCh d2 && isDigitCh d3 && isDigitCh d4 && h1 == '-' &&
    isDigitCh d5 && isDigitCh d6 && h2 == '-' && isDigitCh d7 && isDigitCh d8 &&
    t1 == 'T' &&
    !(rest.takeWhile tsChar).isEmpty &&
    rest.dropWhile tsChar == ['Z']
  | _ => false

/-! ## Data model -/

/-- One routing-table entry (`BucketSubdirectory` in `context/IContext.ts`). -/
structure BucketSubdirectory where
  path : String
  objectLifetimeDays : Nat
  targetLambdaArn : String
  targetLambdaExecutionRoleArn : String
  validateArrivals : Bool
deriving DecidableEq, Repr

/-- The parsed `BUCKET_CONFIG` environment blob. -/
structure BucketConfig where
  name : String
  subdirectories : List BucketSubdirectory
deriving DecidableEq, Repr

/-- JSON values, as produced by the platform `JSON.parse`. -/
inductive JVal where
  | null : JVal
  | bool (b : Bool) : JVal
  | num (n : Int) : JVal
  | str (s : String) : JVal
  | arr (elems : List JVal) : JVal
  | obj (fields : List (String × JVal)) : JVal

/-- Field names of a JSON object (in declaration order), `[]` otherwise. -/
def objFieldNames : JVal → List String
  | .obj fields => fields.map (fun f => f.1)
  | _ => []

/-- The S3 object store of the single configured bucket: an association list
from keys to object contents; earlier entries shadow later ones. -/
abbrev Store := List (String × String)

/-- Content at `key`, if the object exists. -/
def lookupObj : Store → String → Option String
  | [], _ => none
  | (k, v) :: rest, key => if k == key then some v else lookupObj rest key

/-- Overwriting put of `key`. -/
def putObj (s : Store) (k v : String) : Store := (k, v) :: s

/-- Removal of `key` (S3 `DeleteObject` succeeds also when absent). -/
def removeObj (s : Store) (k : String) : Store :=
  s.filter (fun p => !(p.1 == k))

/-- The external world: the clock, the platform JSON parser, and injected
failures of the S3/Lambda clients (a network error, a permissions error…).
A copy also fails naturally when its source key is absent. -/
structure Env where
  now : String
  parseJsonFn : String → Option JVal
  copyFailsExt : String → String → String → Bool
  deleteFailsExt : String → String → Bool
  invokeFailsExt : String → Bool

/-- One request issued to an external client, in issue order. -/
inductive ClientCall where
  | getCall (bucket key : String)
  | copyCall (bucket src dst : String) (tagging : Option String)
  | deleteCall (bucket key : String)
  | invokeCall (arn : String) (payload : JVal) (invocationType : String)

/-- `true` iff the trace contains a consumer (target-Lambda) invocation. -/
def hasInvoke (trace : List ClientCall) : Bool :=
  trace.any (fun a => match a with
    | .invokeCall _ _ _ => true
    | _ => false)

/-- The distinct exit points of `processRecord`, for observability
(the spec's `ProcessingOutcome`): the first three are `Skipped`-class,
`movedInvalidJson`/`movedInvalidStructure` are `MovedToError`,
`dispatched` is `Dispatched`. -/
inductive Outcome where
  | noRoute
  | skippedErrors
  | skippedProcessed
  | getFailed
  | movedInvalidJson
  | movedInvalidStructure
  | renameExtFailed
  | renameFailed
  | dispatched (newKey : String)
deriving DecidableEq, Repr

instance : DecidableEq (Except String Outcome) := fun a b =>
  match a, b with
  | .ok x, .ok y =>
    if h : x = y then .isTrue (by rw [h]) else .isFalse (by simp [h])
  | .error x, .error y =>
    if h : x = y then .isTrue (by rw [h]) else .isFalse (by simp [h])
  | .ok _, .error _ => .isFalse (by simp)
  | .error _, .ok _ => .isFalse (by simp)

/-- Result of running one record: final store, the issued client requests in
order, and either the exit point reached or a thrown error (which the
handler's per-record `catch` will absorb). -/
structure RunOut where
  store : Store
  trace : List ClientCall
  result : Except String Outcome

/-! ## External client operations -/

/-- Models `s3Client.send(new CopyObjectCommand ...)`: fails when the
environment injects a failure or the source object does not exist; on
success the destination holds the source's content (and its tagging when a
`TaggingDirective` is supplied). -/
def s3Copy (env : Env) (store : Store) (bucket src dst : String)
    (_tagging : Option String) : Store × Bool :=
  if env.copyFailsExt bucket src dst then (store, false)
  else
    match lookupObj store src with
    | none => (store, false)
    | some content => (putObj store dst content, true)

/-- Models `s3Client.send(new DeleteObjectCommand ...)`. -/
def s3Delete (env : Env) (store : Store) (bucket key : String) : Store × Bool :=
  if env.deleteFailsExt bucket key then (store, false)
  else (removeObj store key, true)

/-! ## The event-processor functions (`src/unnamed/part_004`) -/

/-- `findSubfolderConfig` (lines 134–144): first configured subdirectory
whose `path` is a `/`-terminated prefix of the key. -/
def findSubfolderConfig (cfg : BucketConfig) (key : String) :
    Option BucketSubdirectory :=
  cfg.subdirectories.find? (fun subdir => startsWithS key (subdir.path ++ "/"))

/-- `getObjectContent` (lines 149–165): issues a `GetObject`; `none` models
both a thrown error (caught) and a missing body. -/
def getObjectContent (store : Store) (bucket key : String) :
    List ClientCall × Option String :=
  ([.getCall bucket key], lookupObj store key)

/-- `validateJson` (lines 170–176): `JSON.parse` with the thrown syntax
error caught into `null`. -/
def validateJson (env : Env) (content : String) : Option JVal :=
  env.parseJsonFn content

/-- `validateJsonStructure` (lines 197–205): hard-coded to `true` pending a
proper implementation. -/
def validateJsonStructure (_jsonData : JVal) : Bool :=
  true

/-- `generateDateBasedFileName` (lines 220–225): the clock reading with the
last hyphen-segment of the subfolder path as prefix (`'data'` when that
segment is empty). -/
def generateDateBasedFileName (env : Env) (subfolderPath : String) : String :=
  let timestamp := env.now
  let pfx := jsOrDefault (lastHyphenSegment subfolderPath) "data"
  subfolderPath ++ "/" ++ pfx ++ "-" ++ timestamp ++ ".json"

/-- `renameObject` (lines 230–251): copy to the new key, then delete the old
key, inside one `try`; any failure yields `false`. -/
def renameObject (env : Env) (store : Store) (bucket oldKey newKey : String) :
    Store × List ClientCall × Bool :=
  let (s1, copyOk) := s3Copy env store bucket oldKey newKey none
  if copyOk then
    let (s2, delOk) := s3Delete env s1 bucket oldKey
    (s2, [.copyCall bucket oldKey newKey none, .deleteCall bucket oldKey], delOk)
  else
    (s1, [.copyCall bucket oldKey newKey none], false)

/-- `renameToJsonExtension` (lines 210–214). -/
def renameToJsonExtension (env : Env) (store : Store) (bucket key : String) :
    Store × List ClientCall × Option String :=
  let newKey := key ++ ".json"
  let (s1, acts, ok) := renameObject env store bucket key newKey
  (s1, acts, if ok then some newKey else none)

/-- `moveToErrorsSubfolder` (lines 257–282): tagged copy into
`{subfolderPath}/errors/invalid-json-{timestamp}.json` then delete of the
original, all inside one `try` whose `catch` only logs — the function never
throws to its caller. -/
def moveToErrorsSubfolder (env : Env) (store : Store)
    (bucket key subfolderPath reason : String) : Store × List ClientCall :=
  let timestamp := env.now
  let errorKey := subfolderPath ++ "/errors/invalid-json-" ++ timestamp ++ ".json"
  let tag := "error-reason=" ++ encodeURIComponentM reason
  let (s1, copyOk) := s3Copy env store bucket key errorKey (some tag)
  if copyOk then
    let (s2, _delOk) := s3Delete env s1 bucket key
    (s2, [.copyCall bucket key errorKey (some tag), .deleteCall bucket key])
  else
    (s1, [.copyCall bucket key errorKey (some tag)])

/-- The invocation payload built by `invokeTargetLambda` (lines 293–301),
kept as an ordered JSON object so field names are observable. -/
def mkInvokePayload (bucket key now : String) : JVal :=
  .obj [("s3Path", .str ("s3://" ++ bucket ++ "/" ++ key)),
        ("bucket", .str bucket),
        ("key", .str key),
        ("processingMetadata",
          .obj [("processedAt", .str now),
                ("processorVersion", .str "1.0.0")])]

/-- `invokeTargetLambda` (lines 287–315): sends an `InvocationType: 'Event'`
(asynchronous) invoke; a failed submission is re-thrown. -/
def invokeTargetLambda (env : Env) (bucket key targetArn : String) :
    List ClientCall × Except String Unit :=
  let payload := mkInvokePayload bucket key env.now
  ([.invokeCall targetArn payload "Event"],
   if env.invokeFailsExt targetArn then
     .error ("Error invoking target Lambda (" ++ targetArn ++ ")")
   else .ok ())

/-- Lines 114–128 of `processRecord`: rename `finalKey` to the date-based
key; on success invoke the target Lambda (whose submission failure
re-throws), otherwise stop. -/
def stampAndDispatch (env : Env) (store : Store) (bucket finalKey : String)
    (sub : BucketSubdirectory) : RunOut :=
  let newKey := generateDateBasedFileName env sub.path
  let (s2, acts2, renamed) := renameObject env store bucket finalKey newKey
  if renamed then
    let (acts3, res) := invokeTargetLambda env bucket newKey sub.targetLambdaArn
    match res with
    | .ok _ => ⟨s2, acts2 ++ acts3, .ok (.dispatched newKey)⟩
    | .error e => ⟨s2, acts2 ++ acts3, .error e⟩
  else ⟨s2, acts2, .ok .renameFailed⟩

/-- Lines 102–128 of `processRecord`: append a `.json` extension when
missing (stopping when that rename fails), then date-stamp and dispatch. -/
def renameAndDispatch (env : Env) (store : Store) (bucket key : String)
    (sub : BucketSubdirectory) : RunOut :=
  if endsWithS key ".json" then stampAndDispatch env store bucket key sub
  else
    let (s1, acts1, renamedKey) := renameToJsonExtension env store bucket key
    match renamedKey with
    | none => ⟨s1, acts1, .ok .renameExtFailed⟩
    | some finalKey =>
      let out := stampAndDispatch env s1 bucket finalKey sub
      ⟨out.store, acts1 ++ out.trace, out.result⟩

/-- `processRecord` (lines 41–129) after the key has been decoded:
classification, the two anti-recursion guards, optional validation with
error relocation, then rename and dispatch. -/
def processKeyedRecord (cfg : BucketConfig) (env : Env) (store : Store)
    (bucket key : String) : RunOut :=
  match findSubfolderConfig cfg key with
  | none => ⟨store, [], .ok .noRoute⟩
  | some subfolderConfig =>
    if includesS key "/errors/" then ⟨store, [], .ok .skippedErrors⟩
    else
      let filename := lastComponent key
      if dateBasedPattern filename then ⟨store, [], .ok .skippedProcessed⟩
      else if subfolderConfig.validateArrivals then
        let (actsG, content) := getObjectContent store bucket key
        match content with
        | none => ⟨store, actsG, .ok .getFailed⟩
        | some objectContent =>
          match validateJson env objectContent with
          | none =>
            let (sE, actsE) := moveToErrorsSubfolder env store bucket key
              subfolderConfig.path "Invalid JSON format"
            ⟨sE, actsG ++ actsE, .ok .movedInvalidJson⟩
          | some jsonData =>
            if validateJsonStructure jsonData then
              let out := renameAndDispatch env store bucket key subfolderConfig
              ⟨out.store, actsG ++ out.trace, out.result⟩
            else
              let (sE, actsE) := moveToErrorsSubfolder env store bucket key
                subfolderConfig.path "Invalid JSON structure"
              ⟨sE, actsG ++ actsE, .ok .movedInvalidStructure⟩
      else renameAndDispatch env store bucket key subfolderConfig

/-- `processRecord` (lines 41–129): decode the notification's key (a thrown
`URIError` propagates to the handler's per-record catch), then process. -/
def processRecord (cfg : BucketConfig) (env : Env) (store : Store)
    (bucket rawKey : String) : RunOut :=
  match decodeObjectKey rawKey with
  | none => ⟨store, [], .error "URIError: URI malformed"⟩
  | some key => processKeyedRecord cfg env store bucket key

/-! ## The bucket-name-checking handler (`src/src/event-processor/index.ts`)

This handler variant verifies, per record, that the bucket reported by the
S3 event equals `BUCKET_CONFIG.name` before constructing the processor; a
mismatch throws an `Error` whose message names both buckets, and the
per-record `catch` logs it and continues with the remaining records.  The
record-processing step itself (`S3EventProcessor.process`) is kept abstract
(a parameter), since only whether it is reached matters here. -/

/-- The bucket and (raw) object key carried by one S3 event record. -/
structure S3Rec where
  bucketName : String
  objectKey : String
deriving DecidableEq, Repr

/-- Literal pieces of the bucket-mismatch `Error` message
(`src/src/event-processor/index.ts`, lines 21–26). -/
def mismatchPre : String := "Bucket name mismatch: S3 event reports bucket \""

/-- Middle literal of the bucket-mismatch message. -/
def mismatchMid : String := "\" but Lambda configuration expects \""

/-- Final literal of the bucket-mismatch message. -/
def mismatchPost : String :=
  "\". This indicates a deployment issue where the Lambda\x27s BUCKET_CONFIG " ++
  "environment variable does not match the actual S3 bucket triggering the event."

/-- The exact message of the `Error` thrown on a bucket-name mismatch. -/
def mismatchMsg (eventBucketName configBucketName : String) : String :=
  mismatchPre ++ eventBucketName ++ mismatchMid ++ configBucketName ++ mismatchPost

/-- The `handler` of `src/src/event-processor/index.ts` (lines 11–39) over an
abstract per-record processor `proc` and processor state `σ`.  Returns the
final state, the records that actually reached the processor (in order), and
the messages logged by the per-record `catch`. -/
def handlerChecked {σ : Type} (cfgName : String)
    (proc : S3Rec → σ → σ × Except String Unit) (st : σ) :
    List S3Rec → σ × List S3Rec × List String
  | [] => (st, [], [])
  | r :: rest =>
    if r.bucketName ≠ cfgName then
      let (st1, calls, logs) := handlerChecked cfgName proc st rest
      (st1, calls, mismatchMsg r.bucketName cfgName :: logs)
    else
      let (st1, res) := proc r st
      let caught : List String := match res with | .ok _ => [] | .error e => [e]
      let (st2, calls, logs) := handlerChecked cfgName proc st1 rest
      (st2, r :: calls, caught ++ logs)

/-! ## Concrete fixtures

A routing table and environment matching the repository's deployment shape
(`context` examples use `data-full` / `data-delta` subdirectories), used to
exercise the theorems on concrete inputs. -/

/-- A two-route configuration: a validating `data-full` route and a
non-validating `data-delta` route. -/
def cfgW : BucketConfig :=
  ⟨"huron-file-drop-dev",
   [⟨"data-full", 7, "arn:aws:lambda:us-east-2:123456789012:function:tgt-full",
     "arn:aws:iam::123456789012:role/tgt-full-role", true⟩,
    ⟨"data-delta", 7, "arn:aws:lambda:us-east-2:123456789012:function:tgt-delta",
     "arn:aws:iam::123456789012:role/tgt-delta-role", false⟩]⟩

/-- A healthy environment whose JSON parser rejects every body. -/
def envW : Env :=
  { now := "2026-02-20T16:57:35.356Z"
    parseJsonFn := fun _ => none
    copyFailsExt := fun _ _ _ => false
    deleteFailsExt := fun _ _ => false
    invokeFailsExt := fun _ => false }

/-- Like `envW` but every body parses (to `null`). -/
def envWjson : Env := { envW with parseJsonFn := fun _ => some .null }

/-- Like `envW` but every S3 copy fails. -/
def envCopyFail : Env := { envW with copyFailsExt := fun _ _ _ => true }

/-- A single-route configuration whose path has no `full`/`delta` suffix. -/
def cfgPerson : BucketConfig :=
  ⟨"huron-file-drop-dev",
   [⟨"person", 7, "arn:aws:lambda:us-east-2:123456789012:function:tgt-person",
     "arn:aws:iam::123456789012:role/tgt-person-role", false⟩]⟩

/-- `envW` at a later clock reading. -/
def envLater : Env := { envW with now := "2026-02-21T09:00:00.000Z" }

/-! ## Helper lemmas -/

/-- `true` only for dispatch-free, exception-free results. -/
def nonDispatchResult : Except String Outcome → Bool
  | .ok (.dispatched _) => false
  | .error _ => false
  | _ => true

theorem hasInvoke_append (a b : List ClientCall) :
    hasInvoke (a ++ b) = (hasInvoke a || hasInvoke b) := List.any_append

theorem leadsWith_self_append (n y : List Char) : leadsWith n (n ++ y) = true := by
  induction n with
  | nil => rfl
  | cons c cs ih => simp [leadsWith, ih]

theorem occursIn_of_lead (n l : List Char) (h : leadsWith n l = true) :
    occursIn n l = true := by
  cases l with
  | nil => simpa [occursIn] using h
  | cons c cs => simp [occursIn, h]

theorem occursIn_append_mid (x n y : List Char) : occursIn n (x ++ (n ++ y)) = true := by
  induction x with
  | nil => exact occursIn_of_lead _ _ (leadsWith_self_append n y)
  | cons c cs ih => simp [occursIn, ih]

theorem lookup_removeObj_self (s : Store) (k : String) :
    lookupObj (removeObj s k) k = none := by
  induction s with
  | nil => rfl
  | cons p rest ih =>
    obtain ⟨pk, pv⟩ := p
    by_cases h : pk = k
    · simpa [removeObj, List.filter_cons, h] using ih
    · simpa [removeObj, List.filter_cons, lookupObj, h] using ih

theorem lookup_removeObj_ne (s : Store) (k k' : String) (h : k' ≠ k) :
    lookupObj (removeObj s k) k' = lookupObj s k' := by
  induction s with
  | nil => rfl
  | cons p rest ih =>
    obtain ⟨pk, pv⟩ := p
    by_cases hp : pk = k
    · have hne : pk ≠ k' := by rw [hp]; exact fun he => h he.symm
      simp [removeObj, List.filter_cons, hp, lookupObj, hne, Ne.symm h] at ih ⊢
      exact ih
    · by_cases hq : pk = k'
      · simp [removeObj, List.filter_cons, hp, lookupObj, hq, h]
      · simp [removeObj, List.filter_cons, hp, lookupObj, hq] at ih ⊢
        exact ih

theorem renameObject_shape (env : Env) (store : Store) (bucket oldKey newKey : String) :
    (renameObject env store bucket oldKey newKey).2.1 = [.copyCall bucket oldKey newKey none] ∨
    (renameObject env store bucket oldKey newKey).2.1 =
      [.copyCall bucket oldKey newKey none, .deleteCall bucket oldKey] := by
  unfold renameObject
  rcases hc : s3Copy env store bucket oldKey newKey none with ⟨s1, copyOk⟩
  cases copyOk
  · simp
  · rcases hd : s3Delete env s1 bucket oldKey with ⟨s2, delOk⟩
    simp [hd]

theorem hasInvoke_renameObject (env : Env) (store : Store) (bucket oldKey newKey : String) :
    hasInvoke (renameObject env store bucket oldKey newKey).2.1 = false := by
  rcases renameObject_shape env store bucket oldKey newKey with h | h <;> rw [h] <;> rfl

theorem hasInvoke_moveToErrors (env : Env) (store : Store) (bucket key p r : String) :
    hasInvoke (moveToErrorsSubfolder env store bucket key p r).2 = false := by
  unfold moveToErrorsSubfolder
  rcases hc : s3Copy env store bucket key (p ++ "/errors/invalid-json-" ++ env.now ++ ".json")
      (some ("error-reason=" ++ encodeURIComponentM r)) with ⟨s1, copyOk⟩
  cases copyOk
  · simp only [hc]
    rfl
  · rcases hd : s3Delete env s1 bucket key with ⟨s2, delOk⟩
    simp only [hc, hd]
    rfl

theorem renameObject_no_source (env : Env) (store : Store) (bucket oldKey newKey : String)
    (h : lookupObj store oldKey = none) :
    renameObject env store bucket oldKey newKey =
      (store, [.copyCall bucket oldKey newKey none], false) := by
  unfold renameObject s3Copy
  by_cases hc : env.copyFailsExt bucket oldKey newKey = true
  · simp [hc]
  · simp at hc; simp [hc, h]

theorem renameObject_copy_fail (env : Env) (store : Store) (bucket oldKey newKey : String)
    (h : env.copyFailsExt bucket oldKey newKey = true ∨ lookupObj store oldKey = none) :
    renameObject env store bucket oldKey newKey =
      (store, [.copyCall bucket oldKey newKey none], false) := by
  by_cases hc : env.copyFailsExt bucket oldKey newKey = true
  · unfold renameObject s3Copy
    simp [hc]
  · rcases h with h | h
    · exact absurd h hc
    · exact renameObject_no_source env store bucket oldKey newKey h

theorem stampAndDispatch_classify (env : Env) (store : Store) (bucket finalKey : String)
    (sub : BucketSubdirectory)
    (h : nonDispatchResult (stampAndDispatch env store bucket finalKey sub).result = true) :
    hasInvoke (stampAndDispatch env store bucket finalKey sub).trace = false := by
  rcases hr : renameObject env store bucket finalKey (generateDateBasedFileName env sub.path)
    with ⟨s2, acts2, renamed⟩
  have htr := hasInvoke_renameObject env store bucket finalKey (generateDateBasedFileName env sub.path)
  rw [hr] at htr
  unfold stampAndDispatch at h ⊢
  simp only [hr] at h ⊢
  cases renamed
  · simpa using htr
  · exfalso
    simp only [invokeTargetLambda] at h
    by_cases hi : env.invokeFailsExt sub.targetLambdaArn = true
    · simp [hi, nonDispatchResult] at h
    · simp at hi; simp [hi, nonDispatchResult] at h

theorem renameAndDispatch_classify (env : Env) (store : Store) (bucket key : String)
    (sub : BucketSubdirectory)
    (h : nonDispatchResult (renameAndDispatch env store bucket key sub).result = true) :
    hasInvoke (renameAndDispatch env store bucket key sub).trace = false := by
  unfold renameAndDispatch at h ⊢
  by_cases he : endsWithS key ".json" = true
  · simp only [he, if_true] at h ⊢
    exact stampAndDispatch_classify env store bucket key sub h
  · simp only [Bool.not_eq_true] at he
    simp only [he, Bool.false_eq_true, if_false] at h ⊢
    rcases hr : renameToJsonExtension env store bucket key with ⟨s1, acts1, renamedKey⟩
    have htr : hasInvoke acts1 = false := by
      have hro2 := hasInvoke_renameObject env store bucket key (key ++ ".json")
      rcases hro : renameObject env store bucket key (key ++ ".json") with ⟨sx, actsx, okx⟩
      rw [hro] at hro2
      unfold renameToJsonExtension at hr
      simp only [hro, Prod.mk.injEq] at hr
      obtain ⟨h1, h2, h3⟩ := hr
      rw [← h2]
      simpa using hro2
    simp only [hr] at h ⊢
    cases renamedKey with
    | none => simpa using htr
    | some finalKey =>
      simp only at h ⊢
      rw [hasInvoke_append, htr, Bool.false_or]
      exact stampAndDispatch_classify env s1 bucket finalKey sub h

theorem processKeyed_classify (cfg : BucketConfig) (env : Env) (store : Store)
    (bucket key : String)
    (h : nonDispatchResult (processKeyedRecord cfg env store bucket key).result = true) :
    hasInvoke (processKeyedRecord cfg env store bucket key).trace = false := by
  unfold processKeyedRecord at h ⊢
  cases hf : findSubfolderConfig cfg key with
  | none =>
    simp only [hf]
    rfl
  | some sub =>
    simp only [hf] at h ⊢
    by_cases herr : includesS key "/errors/" = true
    · simp only [herr, if_true]
      rfl
    · simp only [Bool.not_eq_true] at herr
      simp only [herr, Bool.false_eq_true, if_false] at h ⊢
      by_cases hpat : dateBasedPattern (lastComponent key) = true
      · simp only [hpat, if_true]
        rfl
      · simp only [Bool.not_eq_true] at hpat
        simp only [hpat, Bool.false_eq_true, if_false] at h ⊢
        by_cases hv : sub.validateArrivals = true
        · simp only [hv, if_true, getObjectContent] at h ⊢
          cases hl : lookupObj store key with
          | none =>
            simp only [hl]
            rfl
          | some content =>
            simp only [hl] at h ⊢
            cases hp : validateJson env content with
            | none =>
              simp only [hp]
              rcases hm : moveToErrorsSubfolder env store bucket key sub.path "Invalid JSON format"
                with ⟨sE, actsE⟩
              have hmi := hasInvoke_moveToErrors env store bucket key sub.path "Invalid JSON format"
              rw [hm] at hmi
              simp only [hm, hasInvoke, List.any_cons, List.any_append] at hmi ⊢
              simpa using hmi
            | some j =>
              simp only [hp, validateJsonStructure, if_true] at h ⊢
              rw [hasInvoke_append]
              have hg : hasInvoke [ClientCall.getCall bucket key] = false := rfl
              rw [hg, Bool.false_or]
              exact renameAndDispatch_classify env store bucket key sub h
        · simp only [Bool.not_eq_true] at hv
          simp only [hv, Bool.false_eq_true, if_false] at h ⊢
          exact renameAndDispatch_classify env store bucket key sub h

theorem stampAndDispatch_ne_structure (env : Env) (store : Store) (bucket finalKey : String)
    (sub : BucketSubdirectory) :
    (stampAndDispatch env store bucket finalKey sub).result ≠ .ok .movedInvalidStructure := by
  unfold stampAndDispatch
  rcases hr : renameObject env store bucket finalKey (generateDateBasedFileName env sub.path)
    with ⟨s2, acts2, renamed⟩
  cases renamed
  · simp [hr]
  · simp only [invokeTargetLambda, hr]
    by_cases hi : env.invokeFailsExt sub.targetLambdaArn = true
    · simp [hi]
    · simp at hi; simp [hi]

theorem renameAndDispatch_ne_structure (env : Env) (store : Store) (bucket key : String)
    (sub : BucketSubdirectory) :
    (renameAndDispatch env store bucket key sub).result ≠ .ok .movedInvalidStructure := by
  unfold renameAndDispatch
  by_cases he : endsWithS key ".json" = true
  · simp only [he, if_true]
    exact stampAndDispatch_ne_structure env store bucket key sub
  · simp only [Bool.not_eq_true] at he
    simp only [he, Bool.false_eq_true, if_false]
    rcases hr : renameToJsonExtension env store bucket key with ⟨s1, acts1, renamedKey⟩
    cases renamedKey with
    | none => simp
    | some finalKey =>
      simp only
      exact stampAndDispatch_ne_structure env s1 bucket finalKey sub

theorem processKeyed_ne_structure (cfg : BucketConfig) (env : Env) (store : Store)
    (bucket key : String) :
    (processKeyedRecord cfg env store bucket key).result ≠ .ok .movedInvalidStructure := by
  unfold processKeyedRecord
  cases hf : findSubfolderConfig cfg key with
  | none => simp
  | some sub =>
    by_cases herr : includesS key "/errors/" = true
    · simp [herr]
    · simp only [Bool.not_eq_true] at herr
      simp only [herr, Bool.false_eq_true, if_false]
      by_cases hpat : dateBasedPattern (lastComponent key) = true
      · simp [hpat]
      · simp only [Bool.not_eq_true] at hpat
        simp only [hpat, Bool.false_eq_true, if_false]
        by_cases hv : sub.validateArrivals = true
        · simp only [hv, if_true, getObjectContent]
          cases hl : lookupObj store key with
          | none => simp
          | some content =>
            simp only
            cases hp : validateJson env content with
            | none => simp
            | some j =>
              simp only [validateJsonStructure, if_true]
              exact renameAndDispatch_ne_structure env store bucket key sub
        · simp only [Bool.not_eq_true] at hv
          simp only [hv, Bool.false_eq_true, if_false]
          exact renameAndDispatch_ne_structure env store bucket key sub

theorem stampAndDispatch_no_source (env : Env) (store : Store) (bucket finalKey : String)
    (sub : BucketSubdirectory) (h : lookupObj store finalKey = none) :
    stampAndDispatch env store bucket finalKey sub =
      ⟨store, [.copyCall bucket finalKey (generateDateBasedFileName env sub.path) none],
       .ok .renameFailed⟩ := by
  unfold stampAndDispatch
  simp only [renameObject_no_source env store bucket finalKey (generateDateBasedFileName env sub.path) h]
  simp

theorem renameAndDispatch_no_source (env : Env) (store : Store) (bucket key : String)
    (sub : BucketSubdirectory) (h : lookupObj store key = none) :
    hasInvoke (renameAndDispatch env store bucket key sub).trace = false ∧
    ((renameAndDispatch env store bucket key sub).result = .ok .renameFailed ∨
     (renameAndDispatch env store bucket key sub).result = .ok .renameExtFailed) ∧
    (renameAndDispatch env store bucket key sub).store = store := by
  unfold renameAndDispatch
  by_cases he : endsWithS key ".json" = true
  · rw [stampAndDispatch_no_source env store bucket key sub h]
    simp [he]
    rfl
  · simp only [Bool.not_eq_true] at he
    simp only [he, Bool.false_eq_true, if_false, renameToJsonExtension]
    rw [renameObject_no_source env store bucket key (key ++ ".json") h]
    simp
    rfl

theorem processKeyed_no_source (cfg : BucketConfig) (env : Env) (store : Store)
    (bucket key : String) (h : lookupObj store key = none) :
    hasInvoke (processKeyedRecord cfg env store bucket key).trace = false ∧
    (∀ nk, (processKeyedRecord cfg env store bucket key).result ≠ .ok (.dispatched nk)) := by
  unfold processKeyedRecord
  cases hf : findSubfolderConfig cfg key with
  | none => exact ⟨rfl, fun nk => by simp⟩
  | some sub =>
    simp only
    by_cases herr : includesS key "/errors/" = true
    · simp only [herr, if_true]
      exact ⟨rfl, fun nk => by simp⟩
    · simp only [Bool.not_eq_true] at herr
      simp only [herr, Bool.false_eq_true, if_false]
      by_cases hpat : dateBasedPattern (lastComponent key) = true
      · simp only [hpat, if_true]
        exact ⟨rfl, fun nk => by simp⟩
      · simp only [Bool.not_eq_true] at hpat
        simp only [hpat, Bool.false_eq_true, if_false]
        by_cases hv : sub.validateArrivals = true
        · simp only [hv, if_true, getObjectContent, h]
          exact ⟨rfl, fun nk => by simp⟩
        · simp only [Bool.not_eq_true] at hv
          simp only [hv, Bool.false_eq_true, if_false]
          obtain ⟨h1, h2, h3⟩ := renameAndDispatch_no_source env store bucket key sub h
          refine ⟨h1, fun nk => ?_⟩
          rcases h2 with h2 | h2 <;> rw [h2] <;> simp

theorem stampAndDispatch_dispatched (env : Env) (store : Store) (bucket finalKey : String)
    (sub : BucketSubdirectory) (nk : String)
    (h : (stampAndDispatch env store bucket finalKey sub).result = .ok (.dispatched nk)) :
    nk = generateDateBasedFileName env sub.path ∧
    ClientCall.invokeCall sub.targetLambdaArn (mkInvokePayload bucket nk env.now) "Event" ∈
      (stampAndDispatch env store bucket finalKey sub).trace := by
  unfold stampAndDispatch at h ⊢
  rcases hr : renameObject env store bucket finalKey (generateDateBasedFileName env sub.path)
    with ⟨s2, acts2, renamed⟩
  simp only [hr] at h ⊢
  cases renamed
  · simp at h
  · simp only [invokeTargetLambda] at h ⊢
    by_cases hi : env.invokeFailsExt sub.targetLambdaArn = true
    · simp [hi] at h
    · simp only [Bool.not_eq_true] at hi
      simp only [hi, Bool.false_eq_true, if_false, if_true] at h ⊢
      simp at h
      refine ⟨h.symm, ?_⟩
      rw [h]
      simp

theorem renameAndDispatch_dispatched (env : Env) (store : Store) (bucket key : String)
    (sub : BucketSubdirectory) (nk : String)
    (h : (renameAndDispatch env store bucket key sub).result = .ok (.dispatched nk)) :
    nk = generateDateBasedFileName env sub.path ∧
    ClientCall.invokeCall sub.targetLambdaArn (mkInvokePayload bucket nk env.now) "Event" ∈
      (renameAndDispatch env store bucket key sub).trace := by
  unfold renameAndDispatch at h ⊢
  by_cases he : endsWithS key ".json" = true
  · simp only [he, if_true] at h ⊢
    exact stampAndDispatch_dispatched env store bucket key sub nk h
  · simp only [Bool.not_eq_true] at he
    simp only [he, Bool.false_eq_true, if_false] at h ⊢
    rcases hr : renameToJsonExtension env store bucket key with ⟨s1, acts1, renamedKey⟩
    simp only [hr] at h ⊢
    cases renamedKey with
    | none => simp at h
    | some finalKey =>
      simp only at h ⊢
      obtain ⟨h1, h2⟩ := stampAndDispatch_dispatched env s1 bucket finalKey sub nk h
      exact ⟨h1, List.mem_append_right _ h2⟩

theorem processKeyed_dispatched (cfg : BucketConfig) (env : Env) (store : Store)
    (bucket key : String) (nk : String)
    (h : (processKeyedRecord cfg env store bucket key).result = .ok (.dispatched nk)) :
    ∃ sub, findSubfolderConfig cfg key = some sub ∧
      nk = generateDateBasedFileName env sub.path ∧
      ClientCall.invokeCall sub.targetLambdaArn (mkInvokePayload bucket nk env.now) "Event" ∈
        (processKeyedRecord cfg env store bucket key).trace := by
  unfold processKeyedRecord at h ⊢
  cases hf : findSubfolderConfig cfg key with
  | none => simp [hf] at h
  | some sub =>
    simp only [hf] at h ⊢
    refine ⟨sub, rfl, ?_⟩
    by_cases herr : includesS key "/errors/" = true
    · simp [herr] at h
    · simp only [Bool.not_eq_true] at herr
      simp only [herr, Bool.false_eq_true, if_false] at h ⊢
      by_cases hpat : dateBasedPattern (lastComponent key) = true
      · simp [hpat] at h
      · simp only [Bool.not_eq_true] at hpat
        simp only [hpat, Bool.false_eq_true, if_false] at h ⊢
        by_cases hv : sub.validateArrivals = true
        · simp only [hv, if_true, getObjectContent] at h ⊢
          cases hl : lookupObj store key with
          | none => simp [hl] at h
          | some content =>
            simp only [hl] at h ⊢
            cases hp : validateJson env content with
            | none => simp [hp] at h
            | some j =>
              simp only [hp, validateJsonStructure, if_true] at h ⊢
              obtain ⟨h1, h2⟩ := renameAndDispatch_dispatched env store bucket key sub nk h
              exact ⟨h1, List.mem_append_right _ h2⟩
        · simp only [Bool.not_eq_true] at hv
          simp only [hv, Bool.false_eq_true, if_false] at h ⊢
          exact renameAndDispatch_dispatched env store bucket key sub nk h

theorem tsChar_ne_slash (c : Char) (h : tsChar c = true) : (c != '/') = true := by
  by_cases he : c = '/'
  · subst he; exact absurd h (by decide)
  · simpa using he

theorem isDigitCh_ne_slash (c : Char) (h : isDigitCh c = true) : (c != '/') = true := by
  by_cases he : c = '/'
  · subst he; exact absurd h (by decide)
  · simpa using he

theorem all_ne_slash (l : List Char) (hl : l.all (fun c => c != '/') = true) :
    ∀ c ∈ l, (c != '/') = true := by
  simpa [List.all_eq_true] using hl

theorem isoLike_shape (s : String) (h : isoLikeTimestamp s = true) :
    ∃ d1 d2 d3 d4 d5 d6 d7 d8 rest,
      s.data = d1 :: d2 :: d3 :: d4 :: '-' :: d5 :: d6 :: '-' :: d7 :: d8 :: 'T' :: rest ∧
      isDigitCh d1 = true ∧ isDigitCh d2 = true ∧ isDigitCh d3 = true ∧ isDigitCh d4 = true ∧
      isDigitCh d5 = true ∧ isDigitCh d6 = true ∧ isDigitCh d7 = true ∧ isDigitCh d8 = true ∧
      rest = rest.takeWhile tsChar ++ ['Z'] ∧
      (rest.takeWhile tsChar).isEmpty = false := by
  unfold isoLikeTimestamp at h
  split at h
  case h_2 => exact absurd h (by simp)
  case h_1 d1 d2 d3 d4 h1 d5 d6 h2 d7 d8 t1 rest heq =>
    simp only [Bool.and_eq_true, beq_iff_eq, Bool.not_eq_true'] at h
    obtain ⟨⟨⟨⟨⟨⟨⟨⟨⟨⟨⟨⟨hd1, hd2⟩, hd3⟩, hd4⟩, hh1⟩, hd5⟩, hd6⟩, hh2⟩, hd7⟩, hd8⟩, ht1⟩, hne⟩, hdrop⟩ := h
    subst hh1; subst hh2; subst ht1
    refine ⟨d1, d2, d3, d4, d5, d6, d7, d8, rest, heq, hd1, hd2, hd3, hd4, hd5, hd6, hd7, hd8, ?_, hne⟩
    conv_lhs => rw [← List.takeWhile_append_dropWhile tsChar rest]
    rw [hdrop]

theorem isoLike_no_slash (s : String) (h : isoLikeTimestamp s = true) :
    ∀ c ∈ s.data, (c != '/') = true := by
  obtain ⟨d1, d2, d3, d4, d5, d6, d7, d8, rest, heq, hd1, hd2, hd3, hd4, hd5, hd6, hd7, hd8,
    hsplit, hne⟩ := isoLike_shape s h
  intro c hc
  rw [heq] at hc
  simp only [List.mem_cons] at hc
  rcases hc with rfl | rfl | rfl | rfl | rfl | rfl | rfl | rfl | rfl | rfl | rfl | hc
  · exact isDigitCh_ne_slash _ hd1
  · exact isDigitCh_ne_slash _ hd2
  · exact isDigitCh_ne_slash _ hd3
  · exact isDigitCh_ne_slash _ hd4
  · decide
  · exact isDigitCh_ne_slash _ hd5
  · exact isDigitCh_ne_slash _ hd6
  · decide
  · exact isDigitCh_ne_slash _ hd7
  · exact isDigitCh_ne_slash _ hd8
  · decide
  · rw [hsplit] at hc
    rcases List.mem_append.mp hc with hc | hc
    · exact tsChar_ne_slash _ (List.mem_takeWhile_imp hc)
    · simp only [List.mem_singleton] at hc
      subst hc; decide

theorem dateTail_of_iso (s : String) (h : isoLikeTimestamp s = true) :
    dateTail (s.data ++ ['.', 'j', 's', 'o', 'n']) = true := by
  obtain ⟨d1, d2, d3, d4, d5, d6, d7, d8, rest, heq, hd1, hd2, hd3, hd4, hd5, hd6, hd7, hd8,
    hsplit, hne⟩ := isoLike_shape s h
  rw [heq]
  simp only [List.cons_append]
  have hall : ∀ a ∈ rest.takeWhile tsChar, tsChar a = true := fun a ha => List.mem_takeWhile_imp ha
  have hrest : rest ++ ['.', 'j', 's', 'o', 'n'] =
      rest.takeWhile tsChar ++ ('Z' :: ['.', 'j', 's', 'o', 'n']) := by
    conv_lhs => rw [hsplit]
    simp
  rw [hrest]
  simp only [dateTail]
  rw [List.takeWhile_append_of_pos hall, List.dropWhile_append_of_pos hall]
  simp only [hd1, hd2, hd3, hd4, hd5, hd6, hd7, hd8, Bool.true_and]
  simp [List.takeWhile, List.dropWhile, tsChar, isDigitCh, hne]

theorem lastComponent_append (path fname : String)
    (h : ∀ c ∈ fname.data, (c != '/') = true) :
    lastComponent (path ++ "/" ++ fname) = fname := by
  unfold lastComponent
  have hdata : (path ++ "/" ++ fname).data = path.data ++ ('/' :: fname.data) := by
    simp [String.data_append]
  rw [hdata]
  have hrev : (path.data ++ ('/' :: fname.data)).reverse =
      fname.data.reverse ++ ('/' :: path.data.reverse) := by
    simp
  rw [hrev]
  have hall : ∀ c ∈ fname.data.reverse, (c != '/') = true := by
    intro c hc
    exact h c (List.mem_reverse.mp hc)
  rw [List.takeWhile_append_of_pos hall]
  have hslash : List.takeWhile (fun c => c != '/') ('/' :: path.data.reverse) = [] := by
    simp [List.takeWhile]
  rw [hslash, List.append_nil, List.reverse_reverse]

theorem urlDecode_length_le (l : List Char) (r : List Char)
    (h : urlDecodeList l = some r) : r.length ≤ l.length := by
  induction l using urlDecodeList.induct generalizing r with
  | case1 =>
    simp [urlDecodeList] at h
    subst h
    simp
  | case2 a b t hhex ih =>
    simp only [urlDecodeList, hhex, if_true] at h
    cases hr : urlDecodeList t with
    | none => rw [hr] at h; simp at h
    | some r2 =>
      rw [hr] at h
      simp at h
      subst h
      have := ih r2 hr
      simp
      omega
  | case3 a b t hhex =>
    simp only [urlDecodeList, hhex] at h
    simp at h
  | case4 rest hshape =>
    simp only [urlDecodeList] at h
    exact absurd h (by simp)
  | case5 c rest hc ih =>
    simp only [urlDecodeList] at h
    cases hr : urlDecodeList rest with
    | none => rw [hr] at h; simp at h
    | some r2 =>
      rw [hr] at h
      simp at h
      subst h
      have := ih r2 hr
      simp
      omega

theorem urlDecode_percent_lt (l : List Char) (r : List Char)
    (h : urlDecodeList l = some r) (hp : '%' ∈ l) : r.length < l.length := by
  induction l using urlDecodeList.induct generalizing r with
  | case1 => simp at hp
  | case2 a b t hhex ih =>
    simp only [urlDecodeList, hhex, if_true] at h
    cases hr : urlDecodeList t with
    | none => rw [hr] at h; simp at h
    | some r2 =>
      rw [hr] at h
      simp at h
      subst h
      have := urlDecode_length_le t r2 hr
      simp
      omega
  | case3 a b t hhex =>
    simp only [urlDecodeList, hhex] at h
    simp at h
  | case4 rest hshape =>
    simp only [urlDecodeList] at h
    exact absurd h (by simp)
  | case5 c rest hc ih =>
    simp only [urlDecodeList] at h
    cases hr : urlDecodeList rest with
    | none => rw [hr] at h; simp at h
    | some r2 =>
      rw [hr] at h
      simp at h
      subst h
      have hmem : '%' ∈ rest := by
        rcases List.mem_cons.mp hp with he | he
        · exact absurd he.symm (by simpa using hc)
        · exact he
      have := ih r2 hr hmem
      simp
      omega

theorem urlDecode_id_or_lt (l : List Char) (r : List Char)
    (h : urlDecodeList l = some r) : r = l ∨ r.length < l.length := by
  induction l using urlDecodeList.induct generalizing r with
  | case1 =>
    simp [urlDecodeList] at h
    subst h
    exact Or.inl rfl
  | case2 a b t hhex ih =>
    simp only [urlDecodeList, hhex, if_true] at h
    cases hr : urlDecodeList t with
    | none => rw [hr] at h; simp at h
    | some r2 =>
      rw [hr] at h
      simp at h
      subst h
      have := urlDecode_length_le t r2 hr
      right
      simp
      omega
  | case3 a b t hhex =>
    simp only [urlDecodeList, hhex] at h
    simp at h
  | case4 rest hshape =>
    simp only [urlDecodeList] at h
    exact absurd h (by simp)
  | case5 c rest hc ih =>
    simp only [urlDecodeList] at h
    cases hr : urlDecodeList rest with
    | none => rw [hr] at h; simp at h
    | some r2 =>
      rw [hr] at h
      simp at h
      subst h
      rcases ih r2 hr with he | he
      · exact Or.inl (by rw [he])
      · right
        simp
        omega

theorem plus_not_mem_replacePlus (l : List Char) : '+' ∉ l.map replacePlusChar := by
  intro hmem
  obtain ⟨c, hc, heq⟩ := List.mem_map.mp hmem
  by_cases hcp : c = '+'
  · subst hcp
    simp [replacePlusChar] at heq
  · simp [replacePlusChar, hcp] at heq

theorem decodeKey_changes (rawKey key : String)
    (hdec : decodeObjectKey rawKey = some key)
    (h : '+' ∈ rawKey.data ∨ '%' ∈ rawKey.data) : key ≠ rawKey := by
  unfold decodeObjectKey at hdec
  cases hu : urlDecodeList (replacePlus rawKey).data with
  | none => rw [hu] at hdec; simp at hdec
  | some r =>
    rw [hu] at hdec
    simp at hdec
    intro heq
    subst heq
    have hkdata : key.data = r := by rw [← hdec]
    have hmapdata : (replacePlus key).data = key.data.map replacePlusChar := rfl
    rcases h with h | h
    · rcases urlDecode_id_or_lt _ _ hu with he | he
      · rw [he] at hkdata
        rw [hmapdata] at hkdata
        have : '+' ∈ key.data.map replacePlusChar := by rw [← hkdata]; exact h
        exact plus_not_mem_replacePlus _ this
      · rw [hmapdata, List.length_map] at he
        rw [hkdata] at he
        omega
    · have hpm : '%' ∈ (replacePlus key).data := by
        rw [hmapdata]
        exact List.mem_map.mpr ⟨'%', h, rfl⟩
      have := urlDecode_percent_lt _ _ hu hpm
      rw [hmapdata, List.length_map] at this
      rw [hkdata] at this
      omega

theorem mismatchMsg_contains (a b : String) :
    (∃ p q, mismatchMsg a b = p ++ (a ++ q)) ∧ (∃ u v, mismatchMsg a b = u ++ (b ++ v)) := by
  constructor
  · refine ⟨mismatchPre, mismatchMid ++ b ++ mismatchPost, ?_⟩
    apply String.ext
    simp [mismatchMsg, String.data_append]
  · refine ⟨mismatchPre ++ a ++ mismatchMid, mismatchPost, ?_⟩
    apply String.ext
    simp [mismatchMsg, String.data_append]

/-! ## Claim theorems -/

/-- **C1**: for every arrival whose decoded key lies under an `errors/`
subpath or whose filename component matches the processed-naming pattern,
processing stops before validation, relocation and dispatch: the request
trace is empty (no get, copy, delete or invoke), the store is untouched, and
the outcome is one of the `Skipped` exits. -/
theorem c1_already_processed_skip (cfg : BucketConfig) (env : Env) (store : Store)
    (bucket rawKey key : String)
    (hdec : decodeObjectKey rawKey = some key)
    (h : includesS key "/errors/" = true ∨ dateBasedPattern (lastComponent key) = true) :
    (processRecord cfg env store bucket rawKey).trace = [] ∧
    (processRecord cfg env store bucket rawKey).store = store ∧
    ((processRecord cfg env store bucket rawKey).result = .ok .noRoute ∨
     (processRecord cfg env store bucket rawKey).result = .ok .skippedErrors ∨
     (processRecord cfg env store bucket rawKey).result = .ok .skippedProcessed) := by
  unfold processRecord
  rw [hdec]
  unfold processKeyedRecord
  cases hf : findSubfolderConfig cfg key with
  | none => simp [hf]
  | some sub =>
    simp only [hf]
    cases herr : includesS key "/errors/" with
    | true => simp [herr]
    | false =>
      rcases h with h | h
      · rw [h] at herr; exact absurd herr (by simp)
      · simp [herr, h]

/-- Witness for C1 at a concrete `errors/` key. -/
theorem c1_witness :
    decodeObjectKey "data-full/errors/bad.json" = some "data-full/errors/bad.json" ∧
    includesS "data-full/errors/bad.json" "/errors/" = true ∧
    ((processRecord cfgW envW [] "huron-file-drop-dev" "data-full/errors/bad.json").trace = [] ∧
     (processRecord cfgW envW [] "huron-file-drop-dev" "data-full/errors/bad.json").store = [] ∧
     ((processRecord cfgW envW [] "huron-file-drop-dev" "data-full/errors/bad.json").result = .ok .noRoute ∨
      (processRecord cfgW envW [] "huron-file-drop-dev" "data-full/errors/bad.json").result = .ok .skippedErrors ∨
      (processRecord cfgW envW [] "huron-file-drop-dev" "data-full/errors/bad.json").result = .ok .skippedProcessed)) :=
  ⟨by decide, by decide,
   c1_already_processed_skip cfgW envW [] "huron-file-drop-dev" "data-full/errors/bad.json"
     "data-full/errors/bad.json" (by decide) (Or.inl (by decide))⟩

/-- **C2** (counterexample): the claim fails as stated.  For the configured
route `person`, `generateDateBasedFileName` produces the filename
`person-{timestamp}.json`, which does not match the recognition regex
`^(full|delta|invalid-json)-…` — so the relocated object's re-notification
is not skipped: re-processing the generated key dispatches again instead of
skipping. -/
theorem c2_counterexample :
    generateDateBasedFileName envW "person" = "person/person-2026-02-20T16:57:35.356Z.json" ∧
    dateBasedPattern (lastComponent "person/person-2026-02-20T16:57:35.356Z.json") = false ∧
    (processKeyedRecord cfgPerson envLater
        [("person/person-2026-02-20T16:57:35.356Z.json", "payload")]
        "huron-file-drop-dev" "person/person-2026-02-20T16:57:35.356Z.json").result =
      .ok (.dispatched "person/person-2026-02-21T09:00:00.000Z.json") := by
  refine ⟨by decide, by decide, by rfl⟩

/-- **C2** (amended): for every configured route whose path's final
hyphen-separated segment is `full`, `delta` or `invalid-json`, and whenever
the clock reading has the ISO-8601 shape, the key generated by
`generateDateBasedFileName` has a filename component matching the
already-processed regex and lies under the same route path. -/
theorem c2_roundtrip_amended (env : Env) (path : String)
    (hpfx : jsOrDefault (lastHyphenSegment path) "data" = "full" ∨
            jsOrDefault (lastHyphenSegment path) "data" = "delta" ∨
            jsOrDefault (lastHyphenSegment path) "data" = "invalid-json")
    (hts : isoLikeTimestamp env.now = true) :
    dateBasedPattern (lastComponent (generateDateBasedFileName env path)) = true ∧
    startsWithS (generateDateBasedFileName env path) (path ++ "/") = true := by
  have hnoslash : ∀ c ∈ (jsOrDefault (lastHyphenSegment path) "data" ++ "-" ++ env.now ++ ".json").data,
      (c != '/') = true := by
    intro c hc
    simp only [String.data_append] at hc
    rcases List.mem_append.mp hc with hc | hc
    · rcases List.mem_append.mp hc with hc | hc
      · rcases List.mem_append.mp hc with hc | hc
        · rcases hpfx with hp | hp | hp <;> rw [hp] at hc <;>
            exact all_ne_slash _ (by decide) c hc
        · exact all_ne_slash _ (by decide) c hc
      · exact isoLike_no_slash env.now hts c hc
    · exact all_ne_slash _ (by decide) c hc
  have hgen : generateDateBasedFileName env path =
      path ++ "/" ++ (jsOrDefault (lastHyphenSegment path) "data" ++ "-" ++ env.now ++ ".json") := by
    unfold generateDateBasedFileName
    apply String.ext
    simp [String.data_append]
  constructor
  · rw [hgen, lastComponent_append _ _ hnoslash]
    rcases hpfx with hp | hp | hp <;> rw [hp] <;>
      unfold dateBasedPattern <;>
      simp only [String.data_append] <;>
      simp only [show ("full" : String).data = ['f', 'u', 'l', 'l'] from rfl,
        show ("delta" : String).data = ['d', 'e', 'l', 't', 'a'] from rfl,
        show ("invalid-json" : String).data =
          ['i', 'n', 'v', 'a', 'l', 'i', 'd', '-', 'j', 's', 'o', 'n'] from rfl,
        show ("-" : String).data = ['-'] from rfl,
        show (".json" : String).data = ['.', 'j', 's', 'o', 'n'] from rfl,
        List.cons_append, List.nil_append, List.append_assoc] <;>
      simp only [leadsWith, List.drop] <;>
      simp [dateTail_of_iso env.now hts]
  · rw [hgen]
    unfold startsWithS
    rw [String.data_append]
    exact leadsWith_self_append _ _

/-- Witness for the amended C2 at the `data-full` route. -/
theorem c2_witness :
    dateBasedPattern (lastComponent (generateDateBasedFileName envW "data-full")) = true ∧
    startsWithS (generateDateBasedFileName envW "data-full") ("data-full" ++ "/") = true :=
  c2_roundtrip_amended envW "data-full" (Or.inl (by decide)) (by decide)

/-- **C3**: an arrival that reaches validation under a validating route and
whose body does not parse as JSON is error-relocated with no dispatch: the
trace is exactly a get, a tagged copy to
`{routePath}/errors/invalid-json-{timestamp}.json` and a delete of the
original key; the tag is `error-reason=` followed by the URL-encoded reason
(`Invalid%20JSON%20format`); the copy lands the body at the error key and
the original key is gone. -/
theorem c3_invalid_json_moved (cfg : BucketConfig) (env : Env) (store : Store)
    (bucket rawKey key body : String) (sub : BucketSubdirectory)
    (hdec : decodeObjectKey rawKey = some key)
    (hf : findSubfolderConfig cfg key = some sub)
    (hv : sub.validateArrivals = true)
    (herr : includesS key "/errors/" = false)
    (hpat : dateBasedPattern (lastComponent key) = false)
    (hlook : lookupObj store key = some body)
    (hparse : env.parseJsonFn body = none)
    (hiso : isoLikeTimestamp env.now = true)
    (hcopy : env.copyFailsExt bucket key (sub.path ++ "/errors/invalid-json-" ++ env.now ++ ".json") = false)
    (hdel : env.deleteFailsExt bucket key = false) :
    (processRecord cfg env store bucket rawKey).result = .ok .movedInvalidJson ∧
    (processRecord cfg env store bucket rawKey).trace =
      [ .getCall bucket key,
        .copyCall bucket key (sub.path ++ "/errors/invalid-json-" ++ env.now ++ ".json")
          (some ("error-reason=" ++ encodeURIComponentM "Invalid JSON format")),
        .deleteCall bucket key ] ∧
    hasInvoke (processRecord cfg env store bucket rawKey).trace = false ∧
    lookupObj (processRecord cfg env store bucket rawKey).store
      (sub.path ++ "/errors/invalid-json-" ++ env.now ++ ".json") = some body ∧
    lookupObj (processRecord cfg env store bucket rawKey).store key = none ∧
    encodeURIComponentM "Invalid JSON format" = "Invalid%20JSON%20format" := by
  have hkne : (sub.path ++ "/errors/invalid-json-" ++ env.now ++ ".json") ≠ key := by
    intro he
    have hinc : includesS (sub.path ++ "/errors/invalid-json-" ++ env.now ++ ".json") "/errors/" = true := by
      show occursIn _ _ = true
      have hsplit : ("/errors/invalid-json-" : String).data = "/errors/".data ++ "invalid-json-".data := rfl
      simp only [String.data_append, hsplit, List.append_assoc]
      exact occursIn_append_mid _ _ _
    rw [he, herr] at hinc
    exact Bool.false_ne_true hinc
  have hout : processRecord cfg env store bucket rawKey =
      ⟨removeObj (putObj store (sub.path ++ "/errors/invalid-json-" ++ env.now ++ ".json") body) key,
       [ .getCall bucket key,
         .copyCall bucket key (sub.path ++ "/errors/invalid-json-" ++ env.now ++ ".json")
           (some ("error-reason=" ++ encodeURIComponentM "Invalid JSON format")),
         .deleteCall bucket key ],
       .ok .movedInvalidJson⟩ := by
    simp only [processRecord, hdec, processKeyedRecord, hf, herr, hpat, hv,
      getObjectContent, hlook, validateJson, hparse, moveToErrorsSubfolder,
      s3Copy, hcopy, s3Delete, hdel, Bool.false_eq_true, if_false, List.cons_append,
      List.nil_append]
    simp
  rw [hout]
  refine ⟨rfl, rfl, rfl, ?_, ?_, by decide⟩
  · rw [lookup_removeObj_ne _ _ _ hkne]
    simp [putObj, lookupObj]
  · rw [lookup_removeObj_self]

/-- Witness for C3: the literal byte sequence `{this is not: valid JSON
syntax,}` uploaded under the validating `data-full` route. -/
theorem c3_witness :
    envW.parseJsonFn "\x7bthis is not: valid JSON syntax,\x7d" = none ∧
    ((processRecord cfgW envW [("data-full/upload.txt", "\x7bthis is not: valid JSON syntax,\x7d")]
        "huron-file-drop-dev" "data-full/upload.txt").result = .ok .movedInvalidJson ∧
     (processRecord cfgW envW [("data-full/upload.txt", "\x7bthis is not: valid JSON syntax,\x7d")]
        "huron-file-drop-dev" "data-full/upload.txt").trace =
       [ .getCall "huron-file-drop-dev" "data-full/upload.txt",
         .copyCall "huron-file-drop-dev" "data-full/upload.txt"
           ("data-full" ++ "/errors/invalid-json-" ++ envW.now ++ ".json")
           (some ("error-reason=" ++ encodeURIComponentM "Invalid JSON format")),
         .deleteCall "huron-file-drop-dev" "data-full/upload.txt" ] ∧
     hasInvoke (processRecord cfgW envW [("data-full/upload.txt", "\x7bthis is not: valid JSON syntax,\x7d")]
        "huron-file-drop-dev" "data-full/upload.txt").trace = false ∧
     lookupObj (processRecord cfgW envW [("data-full/upload.txt", "\x7bthis is not: valid JSON syntax,\x7d")]
        "huron-file-drop-dev" "data-full/upload.txt").store
       ("data-full" ++ "/errors/invalid-json-" ++ envW.now ++ ".json") =
         some "\x7bthis is not: valid JSON syntax,\x7d" ∧
     lookupObj (processRecord cfgW envW [("data-full/upload.txt", "\x7bthis is not: valid JSON syntax,\x7d")]
        "huron-file-drop-dev" "data-full/upload.txt").store "data-full/upload.txt" = none ∧
     encodeURIComponentM "Invalid JSON format" = "Invalid%20JSON%20format") :=
  ⟨rfl,
   c3_invalid_json_moved cfgW envW
     [("data-full/upload.txt", "\x7bthis is not: valid JSON syntax,\x7d")]
     "huron-file-drop-dev" "data-full/upload.txt" "data-full/upload.txt"
     "\x7bthis is not: valid JSON syntax,\x7d"
     ⟨"data-full", 7, "arn:aws:lambda:us-east-2:123456789012:function:tgt-full",
      "arn:aws:iam::123456789012:role/tgt-full-role", true⟩
     (by decide) (by decide) rfl (by decide) (by decide) rfl rfl (by decide) rfl rfl⟩

/-- **C4**: in the bucket-name-checking handler, every record whose reported
bucket differs from the configured name is logged with the exact mismatch
message (which contains both names), never reaches the per-record processor,
and the records that do reach the processor are exactly the matching ones,
in order — the handler returns normally for every batch (all errors,
including the thrown mismatch, are absorbed by the per-record catch). -/
theorem c4_bucket_mismatch (σ : Type) (cfgName : String)
    (proc : S3Rec → σ → σ × Except String Unit) (st : σ) (records : List S3Rec) :
    (handlerChecked cfgName proc st records).2.1 =
      records.filter (fun r => r.bucketName == cfgName) ∧
    (∀ r ∈ records, r.bucketName ≠ cfgName →
      mismatchMsg r.bucketName cfgName ∈ (handlerChecked cfgName proc st records).2.2 ∧
      r ∉ (handlerChecked cfgName proc st records).2.1) ∧
    (∀ a b : String,
      (∃ p q, mismatchMsg a b = p ++ (a ++ q)) ∧ (∃ u v, mismatchMsg a b = u ++ (b ++ v))) := by
  have main : (handlerChecked cfgName proc st records).2.1 =
      records.filter (fun r => r.bucketName == cfgName) ∧
      (∀ r ∈ records, r.bucketName ≠ cfgName →
        mismatchMsg r.bucketName cfgName ∈ (handlerChecked cfgName proc st records).2.2) := by
    induction records generalizing st with
    | nil => simp [handlerChecked]
    | cons r rest ih =>
      by_cases hb : r.bucketName = cfgName
      · simp only [handlerChecked, hb, ne_eq, not_true_eq_false, if_false]
        rcases hp : proc r st with ⟨st1, res⟩
        obtain ⟨ih1, ih2⟩ := ih st1
        constructor
        · simp [List.filter_cons, hb, ih1]
        · intro r2 hr2 hne
          rcases List.mem_cons.mp hr2 with rfl | hr2
          · exact absurd hb hne
          · simp only [List.mem_append]
            exact Or.inr (ih2 r2 hr2 hne)
      · simp only [handlerChecked, hb, ne_eq, not_false_eq_true, if_true]
        obtain ⟨ih1, ih2⟩ := ih st
        constructor
        · have hbf : (r.bucketName == cfgName) = false := by simp [hb]
          simp [List.filter_cons, hbf, ih1]
        · intro r2 hr2 hne
          rcases List.mem_cons.mp hr2 with rfl | hr2
          · exact List.mem_cons_self _ _
          · exact List.mem_cons_of_mem _ (ih2 r2 hr2 hne)
  obtain ⟨h1, h2⟩ := main
  refine ⟨h1, fun r hr hne => ⟨h2 r hr hne, ?_⟩, fun a b => mismatchMsg_contains a b⟩
  rw [h1]
  intro hmem
  have := (List.mem_filter.mp hmem).2
  simp at this
  exact hne this

/-- Witness for C4: a two-record batch with one mismatched and one matching
record. -/
theorem c4_witness :
    (handlerChecked "huron-file-drop-dev"
        (fun (_ : S3Rec) (st : Unit) => (st, Except.ok ())) ()
        [⟨"actual-bucket", "t.json"⟩, ⟨"huron-file-drop-dev", "data-full/x.json"⟩]).2.1 =
      [⟨"huron-file-drop-dev", "data-full/x.json"⟩] ∧
    mismatchMsg "actual-bucket" "huron-file-drop-dev" ∈
      (handlerChecked "huron-file-drop-dev"
        (fun (_ : S3Rec) (st : Unit) => (st, Except.ok ())) ()
        [⟨"actual-bucket", "t.json"⟩, ⟨"huron-file-drop-dev", "data-full/x.json"⟩]).2.2 ∧
    (⟨"actual-bucket", "t.json"⟩ : S3Rec) ∉
      (handlerChecked "huron-file-drop-dev"
        (fun (_ : S3Rec) (st : Unit) => (st, Except.ok ())) ()
        [⟨"actual-bucket", "t.json"⟩, ⟨"huron-file-drop-dev", "data-full/x.json"⟩]).2.1 := by
  have h := c4_bucket_mismatch Unit "huron-file-drop-dev"
    (fun (_ : S3Rec) (st : Unit) => (st, Except.ok ())) ()
    [⟨"actual-bucket", "t.json"⟩, ⟨"huron-file-drop-dev", "data-full/x.json"⟩]
  obtain ⟨hm, hlog⟩ := h.2.1 ⟨"actual-bucket", "t.json"⟩ (by simp) (by decide)
  refine ⟨?_, hm, hlog⟩
  rw [h.1]
  decide

/-- **C5** (counterexample): the claim fails as stated — the invocation
payload has no field named `path`.  A successfully processed arrival under
`data-delta` is dispatched with a payload whose fields are exactly
`s3Path`, `bucket`, `key` and `processingMetadata`. -/
theorem c5_counterexample :
    (processRecord cfgW envW [("data-delta/in.json", "x")]
        "huron-file-drop-dev" "data-delta/in.json").result =
      .ok (.dispatched "data-delta/delta-2026-02-20T16:57:35.356Z.json") ∧
    (processRecord cfgW envW [("data-delta/in.json", "x")]
        "huron-file-drop-dev" "data-delta/in.json").trace =
      [ .copyCall "huron-file-drop-dev" "data-delta/in.json"
          "data-delta/delta-2026-02-20T16:57:35.356Z.json" none,
        .deleteCall "huron-file-drop-dev" "data-delta/in.json",
        .invokeCall "arn:aws:lambda:us-east-2:123456789012:function:tgt-delta"
          (mkInvokePayload "huron-file-drop-dev"
            "data-delta/delta-2026-02-20T16:57:35.356Z.json" "2026-02-20T16:57:35.356Z")
          "Event" ] ∧
    objFieldNames (mkInvokePayload "huron-file-drop-dev"
        "data-delta/delta-2026-02-20T16:57:35.356Z.json" "2026-02-20T16:57:35.356Z") =
      ["s3Path", "bucket", "key", "processingMetadata"] ∧
    "path" ∉ objFieldNames (mkInvokePayload "huron-file-drop-dev"
        "data-delta/delta-2026-02-20T16:57:35.356Z.json" "2026-02-20T16:57:35.356Z") := by
  refine ⟨rfl, rfl, rfl, by decide⟩

/-- **C5** (amended): for every successfully dispatched arrival, the
consumer invocation is sent with `InvocationType` `Event` (asynchronous,
one-way) and its payload is the JSON object with exactly the fields
`s3Path` (`"s3://<bucket>/<finalKey>"`), `bucket`, `key` (the final key) and
`processingMetadata` (`processedAt` = the clock reading, `processorVersion`
= `"1.0.0"`). -/
theorem c5_payload_amended (cfg : BucketConfig) (env : Env) (store : Store)
    (bucket rawKey key nk : String) (sub : BucketSubdirectory)
    (hdec : decodeObjectKey rawKey = some key)
    (hf : findSubfolderConfig cfg key = some sub)
    (hres : (processRecord cfg env store bucket rawKey).result = .ok (.dispatched nk)) :
    ClientCall.invokeCall sub.targetLambdaArn
      (JVal.obj [("s3Path", .str ("s3://" ++ bucket ++ "/" ++ nk)),
                 ("bucket", .str bucket),
                 ("key", .str nk),
                 ("processingMetadata",
                   .obj [("processedAt", .str env.now),
                         ("processorVersion", .str "1.0.0")])])
      "Event" ∈ (processRecord cfg env store bucket rawKey).trace ∧
    nk = generateDateBasedFileName env sub.path ∧
    objFieldNames (mkInvokePayload bucket nk env.now) =
      ["s3Path", "bucket", "key", "processingMetadata"] := by
  unfold processRecord at hres ⊢
  rw [hdec] at hres ⊢
  obtain ⟨sub2, hf2, hnk, hmem⟩ := processKeyed_dispatched cfg env store bucket key nk hres
  rw [hf] at hf2
  cases hf2
  exact ⟨hmem, hnk, rfl⟩

/-- Witness for the amended C5 at the `data-delta` arrival of the
counterexample. -/
theorem c5_witness :
    ClientCall.invokeCall "arn:aws:lambda:us-east-2:123456789012:function:tgt-delta"
      (JVal.obj [("s3Path", .str ("s3://" ++ "huron-file-drop-dev" ++ "/" ++
                   "data-delta/delta-2026-02-20T16:57:35.356Z.json")),
                 ("bucket", .str "huron-file-drop-dev"),
                 ("key", .str "data-delta/delta-2026-02-20T16:57:35.356Z.json"),
                 ("processingMetadata",
                   .obj [("processedAt", .str envW.now),
                         ("processorVersion", .str "1.0.0")])])
      "Event" ∈ (processRecord cfgW envW [("data-delta/in.json", "x")]
        "huron-file-drop-dev" "data-delta/in.json").trace ∧
    "data-delta/delta-2026-02-20T16:57:35.356Z.json" =
      generateDateBasedFileName envW "data-delta" ∧
    objFieldNames (mkInvokePayload "huron-file-drop-dev"
        "data-delta/delta-2026-02-20T16:57:35.356Z.json" envW.now) =
      ["s3Path", "bucket", "key", "processingMetadata"] :=
  c5_payload_amended cfgW envW [("data-delta/in.json", "x")]
    "huron-file-drop-dev" "data-delta/in.json" "data-delta/in.json"
    "data-delta/delta-2026-02-20T16:57:35.356Z.json"
    ⟨"data-delta", 7, "arn:aws:lambda:us-east-2:123456789012:function:tgt-delta",
     "arn:aws:iam::123456789012:role/tgt-delta-role", false⟩
    (by decide) (by decide) rfl

/-- **C6**: the schema-validation predicate is a no-op returning `true` for
every parsed JSON value, so no record processing ever takes the
structure-failure branch (outcome `movedInvalidStructure`, reason
`Invalid JSON structure`). -/
theorem c6_structure_noop :
    (∀ j : JVal, validateJsonStructure j = true) ∧
    (∀ (cfg : BucketConfig) (env : Env) (store : Store) (bucket rawKey : String),
      (processRecord cfg env store bucket rawKey).result ≠ .ok .movedInvalidStructure) := by
  refine ⟨fun j => rfl, fun cfg env store bucket rawKey => ?_⟩
  unfold processRecord
  cases hdec : decodeObjectKey rawKey with
  | none => simp
  | some key => exact processKeyed_ne_structure cfg env store bucket key

/-- Witness for C6: a parseable arrival under the validating route is not
structure-rejected. -/
theorem c6_witness :
    (processRecord cfgW envWjson [("data-full/a.json", "[]")]
        "huron-file-drop-dev" "data-full/a.json").result ≠ .ok .movedInvalidStructure :=
  c6_structure_noop.2 cfgW envWjson [("data-full/a.json", "[]")]
    "huron-file-drop-dev" "data-full/a.json"

/-- **C7**: relocation is copy-then-delete in that order — every
`renameObject` trace is either just the copy or the copy followed by the
delete; if the copy fails (injected failure or missing source) the delete is
never issued, the store is untouched and the call reports `false`; and a
record whose date-stamp relocation reports failure ends with outcome
`renameFailed` and no consumer invocation in its trace. -/
theorem c7_copy_then_delete :
    (∀ (env : Env) (store : Store) (bucket oldKey newKey : String),
      (renameObject env store bucket oldKey newKey).2.1 =
        [ClientCall.copyCall bucket oldKey newKey none] ∨
      (renameObject env store bucket oldKey newKey).2.1 =
        [ClientCall.copyCall bucket oldKey newKey none, ClientCall.deleteCall bucket oldKey]) ∧
    (∀ (env : Env) (store : Store) (bucket oldKey newKey : String),
      (env.copyFailsExt bucket oldKey newKey = true ∨ lookupObj store oldKey = none) →
      renameObject env store bucket oldKey newKey =
        (store, [ClientCall.copyCall bucket oldKey newKey none], false)) ∧
    (∀ (cfg : BucketConfig) (env : Env) (store : Store) (bucket rawKey : String),
      (processRecord cfg env store bucket rawKey).result = .ok .renameFailed →
      hasInvoke (processRecord cfg env store bucket rawKey).trace = false) := by
  refine ⟨renameObject_shape, renameObject_copy_fail, fun cfg env store bucket rawKey h => ?_⟩
  unfold processRecord at h ⊢
  cases hdec : decodeObjectKey rawKey with
  | none => rw [hdec] at h; simp at h
  | some key =>
    rw [hdec] at h
    exact processKeyed_classify cfg env store bucket key (by rw [h]; rfl)

/-- Witness for C7: an injected copy failure leaves the store untouched with
only the copy issued, and the corresponding record ends without any
invocation. -/
theorem c7_witness :
    renameObject envCopyFail [("k1", "v")] "huron-file-drop-dev" "k1" "k2" =
      ([("k1", "v")], [ClientCall.copyCall "huron-file-drop-dev" "k1" "k2" none], false) ∧
    hasInvoke (processRecord cfgW envCopyFail [("data-delta/a.json", "x")]
        "huron-file-drop-dev" "data-delta/a.json").trace = false :=
  ⟨c7_copy_then_delete.2.1 envCopyFail [("k1", "v")] "huron-file-drop-dev" "k1" "k2"
     (Or.inl rfl),
   c7_copy_then_delete.2.2 cfgW envCopyFail [("data-delta/a.json", "x")]
     "huron-file-drop-dev" "data-delta/a.json" (by rfl)⟩

/-- **C8**: re-processing the same notification after the object has been
relocated (so its original key is absent from the store) performs no
consumer invocation and cannot end in a `dispatched` outcome — for any
environment, configuration and injected failures. -/
theorem c8_idempotence (cfg : BucketConfig) (env : Env) (store : Store)
    (bucket rawKey key : String)
    (hdec : decodeObjectKey rawKey = some key)
    (hlook : lookupObj store key = none) :
    hasInvoke (processRecord cfg env store bucket rawKey).trace = false ∧
    (∀ nk, (processRecord cfg env store bucket rawKey).result ≠ .ok (.dispatched nk)) := by
  unfold processRecord
  rw [hdec]
  exact processKeyed_no_source cfg env store bucket key hlook

/-- Witness for C8: the original notification re-fed against an empty
store. -/
theorem c8_witness :
    hasInvoke (processRecord cfgW envW [] "huron-file-drop-dev" "data-full/in.json").trace = false ∧
    (∀ nk, (processRecord cfgW envW [] "huron-file-drop-dev" "data-full/in.json").result ≠
      .ok (.dispatched nk)) :=
  c8_idempotence cfgW envW [] "huron-file-drop-dev" "data-full/in.json" "data-full/in.json"
    (by decide) rfl

/-- **C9**: `processRecord` first transforms the notification's raw key —
`'+'` replaced by space, then percent-decoded (a malformed escape throws) —
and everything downstream runs on the decoded key; consequently a raw key
containing `'+'` or a percent-escape is processed under a key string
different from the one the notification carried. -/
theorem c9_decoded_key_used (cfg : BucketConfig) (env : Env) (store : Store)
    (bucket rawKey : String) :
    processRecord cfg env store bucket rawKey =
      (match decodeObjectKey rawKey with
       | none => ⟨store, [], .error "URIError: URI malformed"⟩
       | some key => processKeyedRecord cfg env store bucket key) ∧
    decodeObjectKey rawKey = (urlDecodeList (replacePlus rawKey).data).map (fun l => ⟨l⟩) ∧
    (∀ key, decodeObjectKey rawKey = some key →
      ('+' ∈ rawKey.data ∨ '%' ∈ rawKey.data) → key ≠ rawKey) :=
  ⟨rfl, rfl, fun key hdec h => decodeKey_changes rawKey key hdec h⟩

/-- Witness for C9: `data-full/my+file%24.json` decodes to
`data-full/my file$.json`, a different key. -/
theorem c9_witness :
    decodeObjectKey "data-full/my+file%24.json" = some "data-full/my file$.json" ∧
    "data-full/my file$.json" ≠ "data-full/my+file%24.json" :=
  ⟨by decide,
   (c9_decoded_key_used cfgW envW [] "huron-file-drop-dev" "data-full/my+file%24.json").2.2
     "data-full/my file$.json" (by decide) (Or.inl (by decide))⟩

/-- **C10**: the error-relocation routine absorbs its own copy/delete
failures — when moving an unparseable arrival to the `errors/` subpath
fails (injected copy failure, or delete failure after the copy), the record
still completes with the non-exception outcome `movedInvalidJson`, the
original object is still present at its original key, and no consumer
invocation occurs. -/
theorem c10_error_move_no_throw (cfg : BucketConfig) (env : Env) (store : Store)
    (bucket rawKey key body : String) (sub : BucketSubdirectory)
    (hdec : decodeObjectKey rawKey = some key)
    (hf : findSubfolderConfig cfg key = some sub)
    (hv : sub.validateArrivals = true)
    (herr : includesS key "/errors/" = false)
    (hpat : dateBasedPattern (lastComponent key) = false)
    (hlook : lookupObj store key = some body)
    (hparse : env.parseJsonFn body = none)
    (hfail : env.copyFailsExt bucket key (sub.path ++ "/errors/invalid-json-" ++ env.now ++ ".json") = true ∨
             env.deleteFailsExt bucket key = true) :
    (processRecord cfg env store bucket rawKey).result = .ok .movedInvalidJson ∧
    lookupObj (processRecord cfg env store bucket rawKey).store key = some body ∧
    hasInvoke (processRecord cfg env store bucket rawKey).trace = false := by
  have hkne : (sub.path ++ "/errors/invalid-json-" ++ env.now ++ ".json") ≠ key := by
    intro he
    have hinc : includesS (sub.path ++ "/errors/invalid-json-" ++ env.now ++ ".json") "/errors/" = true := by
      show occursIn _ _ = true
      have hsplit : ("/errors/invalid-json-" : String).data = "/errors/".data ++ "invalid-json-".data := rfl
      simp only [String.data_append, hsplit, List.append_assoc]
      exact occursIn_append_mid _ _ _
    rw [he, herr] at hinc
    exact Bool.false_ne_true hinc
  by_cases hcopy : env.copyFailsExt bucket key (sub.path ++ "/errors/invalid-json-" ++ env.now ++ ".json") = true
  · have hout : processRecord cfg env store bucket rawKey =
        ⟨store,
         [ .getCall bucket key,
           .copyCall bucket key (sub.path ++ "/errors/invalid-json-" ++ env.now ++ ".json")
             (some ("error-reason=" ++ encodeURIComponentM "Invalid JSON format")) ],
         .ok .movedInvalidJson⟩ := by
      simp only [processRecord, hdec, processKeyedRecord, hf, herr, hpat, hv,
        getObjectContent, hlook, validateJson, hparse, moveToErrorsSubfolder,
        s3Copy, hcopy]
      simp
    rw [hout]
    exact ⟨rfl, hlook, rfl⟩
  · have hdel : env.deleteFailsExt bucket key = true := by
      rcases hfail with h | h
      · exact absurd h hcopy
      · exact h
    have hcopy2 : env.copyFailsExt bucket key (sub.path ++ "/errors/invalid-json-" ++ env.now ++ ".json") = false := by
      simpa using hcopy
    have hout : processRecord cfg env store bucket rawKey =
        ⟨putObj store (sub.path ++ "/errors/invalid-json-" ++ env.now ++ ".json") body,
         [ .getCall bucket key,
           .copyCall bucket key (sub.path ++ "/errors/invalid-json-" ++ env.now ++ ".json")
             (some ("error-reason=" ++ encodeURIComponentM "Invalid JSON format")),
           .deleteCall bucket key ],
         .ok .movedInvalidJson⟩ := by
      simp only [processRecord, hdec, processKeyedRecord, hf, herr, hpat, hv,
        getObjectContent, hlook, validateJson, hparse, moveToErrorsSubfolder,
        s3Copy, hcopy2, s3Delete, hdel]
      simp
    rw [hout]
    refine ⟨rfl, ?_, rfl⟩
    simp [putObj, lookupObj, hkne, hlook]

/-- Witness for C10: the error-move copy fails for an unparseable arrival;
the record completes, the object stays put, nothing is dispatched. -/
theorem c10_witness :
    (processRecord cfgW envCopyFail [("data-full/bad.txt", "not json")]
        "huron-file-drop-dev" "data-full/bad.txt").result = .ok .movedInvalidJson ∧
    lookupObj (processRecord cfgW envCopyFail [("data-full/bad.txt", "not json")]
        "huron-file-drop-dev" "data-full/bad.txt").store "data-full/bad.txt" = some "not json" ∧
    hasInvoke (processRecord cfgW envCopyFail [("data-full/bad.txt", "not json")]
        "huron-file-drop-dev" "data-full/bad.txt").trace = false :=
  c10_error_move_no_throw cfgW envCopyFail [("data-full/bad.txt", "not json")]
    "huron-file-drop-dev" "data-full/bad.txt" "data-full/bad.txt" "not json"
    ⟨"data-full", 7, "arn:aws:lambda:us-east-2:123456789012:function:tgt-full",
     "arn:aws:iam::123456789012:role/tgt-full-role", true⟩
    (by decide) (by decide) rfl (by decide) (by decide) rfl rfl (Or.inl rfl)
